import Mathlib

set_option maxRecDepth 100000

/-!
Verification of the bro-pdns aggregation engine and store against its
specification.  The Go sources `aggregate.go` and `store_pg.go` are embedded
shallowly: Go maps become association lists, `float64` timestamps become
rationals (the code only copies and compares timestamps, operations that are
exact on the representable values), `uint` counters become `Nat` (no claim
depends on wrap-around).
-/

namespace BroPDNS

/-- Go: `var MAX_SANE_VALUE_LEN = 1000`. -/
def MAX_SANE_VALUE_LEN : Nat := 1000

/-- Go `stripDecimal`: `"-"` becomes `"0"`; otherwise the string is cut at the
first `"."` (`strings.Index` + slice), and returned unchanged when there is no
`"."`.  Cutting at the byte index of the first `'.'` equals keeping the prefix
of characters other than `'.'`, since `'.'` is a single-byte character. -/
def stripDecimal (value : String) : String :=
  if value = "-" then "0"
  else String.mk (value.data.takeWhile (fun c => c ≠ '.'))

/-- Go `DNSRecord`. -/
structure DNSRecord where
  ts      : Rat
  query   : String
  qtype   : String
  answers : List String
  ttls    : List String
deriving DecidableEq

/-- Go `uniqueTuple`. -/
structure uniqueTuple where
  query  : String
  answer : String
  qtype  : String
deriving DecidableEq

/-- Go `uniqueIndividual`; `which` is `"Q"` or `"A"`. -/
structure uniqueIndividual where
  value : String
  which : String
deriving DecidableEq

/-- Go `queryStat`. -/
structure queryStat where
  count : Nat
  first : Rat
  last  : Rat
  ttl   : String
deriving DecidableEq

/-- Association-list image of a Go map store `m[k] = f(m[k])`: a present key
is updated in place, an absent key is adjoined with `f none`. -/
def upsertList {κ σ : Type} [DecidableEq κ] :
    List (κ × σ) → κ → (Option σ → σ) → List (κ × σ)
  | [], k, f => [(k, f none)]
  | (k1, s) :: rest, k, f =>
    if k1 = k then (k1, f (some s)) :: rest else (k1, s) :: upsertList rest k f

/-- Association-list image of a Go map read `m[k]`. -/
def lookupKey {κ σ : Type} [DecidableEq κ] : List (κ × σ) → κ → Option σ
  | [], _ => none
  | (k1, s) :: rest, k => if k1 = k then some s else lookupKey rest k

/-- Go `DNSAggregator` (the wall-clock `start` field is not modelled). -/
structure DNSAggregator where
  queries        : List (uniqueTuple × queryStat)
  values         : List (uniqueIndividual × queryStat)
  totalRecords   : Nat
  skippedRecords : Nat
deriving DecidableEq

/-- Go `NewDNSAggregator`: empty maps, zero counters. -/
def NewDNSAggregator : DNSAggregator :=
  { queries := [], values := [], totalRecords := 0, skippedRecords := 0 }

/-- Go `SkipRecord`. -/
def SkipRecord (d : DNSAggregator) : DNSAggregator :=
  { d with skippedRecords := d.skippedRecords + 1 }

/-- The `d.values[query_value]` branch of `AddRecord`: a missing entry is
created as `{first: ts, last: ts, count: 1}` (the `ttl` field is left at the
Go zero value `""`); an existing entry gets `count+1` and `last` overwritten with
`ts` — `first` and `ttl` are not touched. -/
def bumpQueryValue (old : Option queryStat) (ts : Rat) : queryStat :=
  match old with
  | none => { count := 1, first := ts, last := ts, ttl := "" }
  | some s => { s with count := s.count + 1, last := ts }

/-- The `d.queries[uquery]` and `d.values[answer_value]` branches of
`AddRecord`: a missing entry is created as
`{first: ts, last: ts, ttl: ttl, count: 1}`; an existing entry gets `count+1`,
`last` overwritten with `ts` and `ttl` overwritten — `first` is not touched. -/
def bumpAnswer (old : Option queryStat) (ts : Rat) (ttl : String) : queryStat :=
  match old with
  | none => { count := 1, first := ts, last := ts, ttl := ttl }
  | some s => { s with count := s.count + 1, last := ts, ttl := ttl }

/-- The `for idx, answer := range r.answers` loop of `AddRecord`, with each
answer paired with `r.ttls[idx]` (the Record Source owes equal list lengths;
on a mismatch the Go code panics, declared undefined behavior by the spec).
An over-long answer increments the skip counter and returns at once, keeping
every update already applied; the sentinel `"-"` only skips its own slot. -/
def processAnswers (query qtype : String) (ts : Rat) :
    DNSAggregator → List (String × String) → DNSAggregator
  | d, [] => d
  | d, (answer, rawTtl) :: rest =>
    if answer.length > MAX_SANE_VALUE_LEN then
      { d with skippedRecords := d.skippedRecords + 1 }
    else if answer = "-" then
      processAnswers query qtype ts d rest
    else
      processAnswers query qtype ts
        { d with
          queries := upsertList d.queries ⟨query, answer, qtype⟩
            (fun o => bumpAnswer o ts (stripDecimal rawTtl))
          values := upsertList d.values ⟨answer, "A"⟩
            (fun o => bumpAnswer o ts (stripDecimal rawTtl)) }
        rest

/-- Go `AddRecord` (`aggregate.go`): an over-long query drops the record with
only the skip counter incremented; otherwise the total counter and the
query-individual entry are updated first, then the answers loop runs. -/
def AddRecord (d : DNSAggregator) (r : DNSRecord) : DNSAggregator :=
  if r.query.length > MAX_SANE_VALUE_LEN then
    { d with skippedRecords := d.skippedRecords + 1 }
  else
    processAnswers r.query r.qtype r.ts
      { d with
        totalRecords := d.totalRecords + 1
        values := upsertList d.values ⟨r.query, "Q"⟩
          (fun o => bumpQueryValue o r.ts) }
      (r.answers.zip r.ttls)

/-- Go `aggregationResult` (the wall-clock `Duration` field is not
modelled; the flattened entry lists keep key and stat paired). -/
structure aggregationResult where
  TotalRecords   : Nat
  SkippedRecords : Nat
  Tuples         : List (uniqueTuple × queryStat)
  TuplesLen      : Nat
  Individual     : List (uniqueIndividual × queryStat)
  IndividualLen  : Nat
deriving DecidableEq

/-- Go `GetResult`: flattens both maps and copies the counters. -/
def GetResult (d : DNSAggregator) : aggregationResult :=
  { TotalRecords := d.totalRecords
    SkippedRecords := d.skippedRecords
    Tuples := d.queries
    TuplesLen := d.queries.length
    Individual := d.values
    IndividualLen := d.values.length }

/-- The per-key combine in the `else` branch of Go `Merge`:
`count += other.count`, `first = min`, `last = max`, `ttl = other.ttl`. -/
def combineStat (a b : queryStat) : queryStat :=
  { count := a.count + b.count
    first := min a.first b.first
    last  := max a.last b.last
    ttl   := b.ttl }

/-- One map-merge loop of Go `Merge`: every key of `other` is folded into
`self` — adopted wholesale when absent, combined with `combineStat` when
present. -/
def mergeMaps {κ : Type} [DecidableEq κ]
    (self other : List (κ × queryStat)) : List (κ × queryStat) :=
  other.foldl (fun acc kv =>
    upsertList acc kv.1 (fun o =>
      match o with
      | none => kv.2
      | some s => combineStat s kv.2)) self

/-- Go `Merge`: merges both maps of `other` into `d`; the total/skipped
counters are not merged by the source. -/
def Merge (d other : DNSAggregator) : DNSAggregator :=
  { d with
    queries := mergeMaps d.queries other.queries
    values := mergeMaps d.values other.values }

/-- Lifting of `combineStat` to optional map entries, describing one merged
key: `self`-only keys are kept, `other`-only keys adopted, shared keys
combined. -/
def combineOpt : Option queryStat → Option queryStat → Option queryStat
  | s, none => s
  | none, some t => some t
  | some s, some t => some (combineStat s t)

/-- The count/first/last projection of a stat — the fields for which the
merge combine is a commutative monoid (ttl is excluded). -/
def statProj (s : queryStat) : Nat × Rat × Rat :=
  (s.count, s.first, s.last)

/-! ### Association-list lemmas -/

theorem lookup_upsert_self {κ σ : Type} [DecidableEq κ]
    (m : List (κ × σ)) (k : κ) (f : Option σ → σ) :
    lookupKey (upsertList m k f) k = some (f (lookupKey m k)) := by
  induction m with
  | nil => simp [upsertList, lookupKey]
  | cons p rest ih =>
    obtain ⟨k1, s⟩ := p
    by_cases h : k1 = k
    · simp [upsertList, lookupKey, h]
    · simp [upsertList, lookupKey, h, ih]

theorem lookup_upsert_ne {κ σ : Type} [DecidableEq κ]
    (m : List (κ × σ)) (k k2 : κ) (f : Option σ → σ) (h : k2 ≠ k) :
    lookupKey (upsertList m k f) k2 = lookupKey m k2 := by
  induction m with
  | nil => simp [upsertList, lookupKey, Ne.symm h]
  | cons p rest ih =>
    obtain ⟨k1, s⟩ := p
    by_cases h1 : k1 = k
    · subst h1
      simp [upsertList, lookupKey, Ne.symm h]
    · by_cases h2 : k1 = k2
      · simp [upsertList, lookupKey, h1, h2, h]
      · simp [upsertList, lookupKey, h1, h2, ih]

theorem lookup_eq_none_of_not_mem {κ σ : Type} [DecidableEq κ]
    (m : List (κ × σ)) (k : κ) (h : k ∉ m.map Prod.fst) :
    lookupKey m k = none := by
  induction m with
  | nil => rfl
  | cons p rest ih =>
    obtain ⟨k1, s⟩ := p
    simp only [List.map_cons, List.mem_cons] at h
    push_neg at h
    have hne : ¬k1 = k := fun hk => h.1 hk.symm
    simp [lookupKey, hne, ih h.2]

theorem mem_map_fst_upsert {κ σ : Type} [DecidableEq κ]
    (m : List (κ × σ)) (k a : κ) (f : Option σ → σ)
    (h : a ∈ (upsertList m k f).map Prod.fst) :
    a ∈ m.map Prod.fst ∨ a = k := by
  induction m with
  | nil => simpa [upsertList] using h
  | cons p rest ih =>
    obtain ⟨k1, s⟩ := p
    by_cases h1 : k1 = k
    · simp only [upsertList, if_pos h1, List.map_cons] at h
      simp only [List.map_cons]
      exact Or.inl h
    · simp only [upsertList, if_neg h1, List.map_cons, List.mem_cons] at h
      rcases h with h | h
      · exact Or.inl (by simp [h])
      · rcases ih h with h | h
        · exact Or.inl (by simp [h])
        · exact Or.inr h

theorem nodup_upsert {κ σ : Type} [DecidableEq κ]
    (m : List (κ × σ)) (k : κ) (f : Option σ → σ)
    (h : (m.map Prod.fst).Nodup) :
    ((upsertList m k f).map Prod.fst).Nodup := by
  induction m with
  | nil => simp [upsertList]
  | cons p rest ih =>
    obtain ⟨k1, s⟩ := p
    simp only [List.map_cons, List.nodup_cons] at h
    by_cases h1 : k1 = k
    · simp only [upsertList, if_pos h1, List.map_cons, List.nodup_cons]
      exact ⟨h.1, h.2⟩
    · simp only [upsertList, if_neg h1, List.map_cons, List.nodup_cons]
      refine ⟨fun hmem => ?_, ih h.2⟩
      rcases mem_map_fst_upsert rest k k1 f hmem with hmem | hmem
      · exact h.1 hmem
      · exact h1 hmem

theorem upsert_forall {κ σ : Type} [DecidableEq κ] (P : σ → Prop)
    (m : List (κ × σ)) (k : κ) (f : Option σ → σ)
    (hm : ∀ p ∈ m, P p.2) (hnone : P (f none))
    (hsome : ∀ s, P s → P (f (some s))) :
    ∀ p ∈ upsertList m k f, P p.2 := by
  induction m with
  | nil =>
    intro p hp
    simp only [upsertList, List.mem_singleton] at hp
    subst hp
    exact hnone
  | cons q rest ih =>
    obtain ⟨k1, s⟩ := q
    intro p hp
    by_cases h1 : k1 = k
    · simp only [upsertList, if_pos h1, List.mem_cons] at hp
      rcases hp with hp | hp
      · subst hp
        exact hsome s (hm (k1, s) (by simp))
      · exact hm p (List.mem_cons_of_mem _ hp)
    · simp only [upsertList, if_neg h1, List.mem_cons] at hp
      rcases hp with hp | hp
      · subst hp
        exact hm (k1, s) (by simp)
      · exact ih (fun q hq => hm q (List.mem_cons_of_mem _ hq)) p hp

/-! ### Merge lemmas -/

theorem mergeMaps_cons {κ : Type} [DecidableEq κ]
    (self : List (κ × queryStat)) (kv : κ × queryStat)
    (rest : List (κ × queryStat)) :
    mergeMaps self (kv :: rest) =
      mergeMaps (upsertList self kv.1 (fun o =>
        match o with
        | none => kv.2
        | some s => combineStat s kv.2)) rest := rfl

theorem lookup_mergeMaps {κ : Type} [DecidableEq κ]
    (other self : List (κ × queryStat)) (k : κ)
    (h : (other.map Prod.fst).Nodup) :
    lookupKey (mergeMaps self other) k
      = combineOpt (lookupKey self k) (lookupKey other k) := by
  induction other generalizing self with
  | nil =>
    cases hs : lookupKey self k <;> simp [mergeMaps, lookupKey, combineOpt, hs]
  | cons kv rest ih =>
    obtain ⟨k1, s1⟩ := kv
    simp only [List.map_cons, List.nodup_cons] at h
    rw [mergeMaps_cons, ih _ h.2]
    by_cases hk : k = k1
    · subst hk
      rw [lookup_eq_none_of_not_mem rest k h.1, lookup_upsert_self]
      simp only [lookupKey, if_pos rfl]
      cases hs : lookupKey self k <;> simp [combineOpt]
    · rw [lookup_upsert_ne _ _ _ _ (by exact hk)]
      simp only [lookupKey, if_neg (fun hh : k1 = k => hk hh.symm)]

theorem nodup_mergeMaps {κ : Type} [DecidableEq κ]
    (other self : List (κ × queryStat))
    (h : (self.map Prod.fst).Nodup) :
    ((mergeMaps self other).map Prod.fst).Nodup := by
  induction other generalizing self with
  | nil => exact h
  | cons kv rest ih =>
    rw [mergeMaps_cons]
    exact ih _ (nodup_upsert _ _ _ h)

theorem mergeMaps_forall {κ : Type} [DecidableEq κ] (P : queryStat → Prop)
    (other self : List (κ × queryStat))
    (hs : ∀ p ∈ self, P p.2) (ho : ∀ p ∈ other, P p.2)
    (hcomb : ∀ a b, P a → P b → P (combineStat a b)) :
    ∀ p ∈ mergeMaps self other, P p.2 := by
  induction other generalizing self with
  | nil => exact hs
  | cons kv rest ih =>
    rw [mergeMaps_cons]
    refine ih _ ?_ (fun q hq => ho q (List.mem_cons_of_mem _ hq))
    have hkv : P kv.2 := ho kv (by simp)
    exact upsert_forall P self kv.1 _ hs hkv (fun s hps => hcomb s kv.2 hps hkv)

/-! ### Key uniqueness

Go maps bind every key at most once; the corresponding fact for the
association-list embedding — the key lists stay Nodup under every operation —
justifies the Nodup hypotheses used by the merge characterization. -/

theorem processAnswers_nodup (query qtype : String) (ts : Rat)
    (l : List (String × String)) (d : DNSAggregator)
    (hq : (d.queries.map Prod.fst).Nodup) (hv : (d.values.map Prod.fst).Nodup) :
    (((processAnswers query qtype ts d l).queries.map Prod.fst).Nodup)
    ∧ (((processAnswers query qtype ts d l).values.map Prod.fst).Nodup) := by
  induction l generalizing d with
  | nil => exact ⟨hq, hv⟩
  | cons a rest ih =>
    obtain ⟨answer, rawTtl⟩ := a
    by_cases h1 : answer.length > MAX_SANE_VALUE_LEN
    · simp only [processAnswers, if_pos h1]
      exact ⟨hq, hv⟩
    · by_cases h2 : answer = "-"
      · simp only [processAnswers, if_neg h1, if_pos h2]
        exact ih d hq hv
      · simp only [processAnswers, if_neg h1, if_neg h2]
        exact ih _ (nodup_upsert _ _ _ hq) (nodup_upsert _ _ _ hv)

theorem addRecord_nodup (d : DNSAggregator) (r : DNSRecord)
    (hq : (d.queries.map Prod.fst).Nodup) (hv : (d.values.map Prod.fst).Nodup) :
    (((AddRecord d r).queries.map Prod.fst).Nodup)
    ∧ (((AddRecord d r).values.map Prod.fst).Nodup) := by
  by_cases h1 : r.query.length > MAX_SANE_VALUE_LEN
  · simp only [AddRecord, if_pos h1]
    exact ⟨hq, hv⟩
  · simp only [AddRecord, if_neg h1]
    exact processAnswers_nodup _ _ _ _ _ hq (nodup_upsert _ _ _ hv)

theorem merge_nodup (d e : DNSAggregator)
    (hq : (d.queries.map Prod.fst).Nodup) (hv : (d.values.map Prod.fst).Nodup) :
    (((Merge d e).queries.map Prod.fst).Nodup)
    ∧ (((Merge d e).values.map Prod.fst).Nodup) :=
  ⟨nodup_mergeMaps _ _ hq, nodup_mergeMaps _ _ hv⟩

/-! ### The first ≤ last invariant -/

/-- A stat is well formed below a time bound `t`: its interval is ordered and
ends no later than `t`. -/
def statOK (s : queryStat) (t : Rat) : Prop :=
  s.first ≤ s.last ∧ s.last ≤ t

instance (s : queryStat) (t : Rat) : Decidable (statOK s t) := by
  unfold statOK
  infer_instance

/-- All stats held by the aggregator are well formed below `t`. -/
def InvBelow (d : DNSAggregator) (t : Rat) : Prop :=
  (∀ p ∈ d.queries, statOK p.2 t) ∧ (∀ p ∈ d.values, statOK p.2 t)

instance (d : DNSAggregator) (t : Rat) : Decidable (InvBelow d t) := by
  unfold InvBelow
  infer_instance

/-- The bare first ≤ last invariant of the spec. -/
def FirstLast (d : DNSAggregator) : Prop :=
  (∀ p ∈ d.queries, p.2.first ≤ p.2.last) ∧ (∀ p ∈ d.values, p.2.first ≤ p.2.last)

instance (d : DNSAggregator) : Decidable (FirstLast d) := by
  unfold FirstLast
  infer_instance

theorem statOK_mono (s : queryStat) (t u : Rat) (h : statOK s t) (htu : t ≤ u) :
    statOK s u :=
  ⟨h.1, h.2.trans htu⟩

theorem processAnswers_inv (query qtype : String) (ts : Rat)
    (l : List (String × String)) (d : DNSAggregator)
    (hq : ∀ p ∈ d.queries, statOK p.2 ts) (hv : ∀ p ∈ d.values, statOK p.2 ts) :
    (∀ p ∈ (processAnswers query qtype ts d l).queries, statOK p.2 ts)
    ∧ (∀ p ∈ (processAnswers query qtype ts d l).values, statOK p.2 ts) := by
  induction l generalizing d with
  | nil => exact ⟨hq, hv⟩
  | cons a rest ih =>
    obtain ⟨answer, rawTtl⟩ := a
    by_cases h1 : answer.length > MAX_SANE_VALUE_LEN
    · simp only [processAnswers, if_pos h1]
      exact ⟨hq, hv⟩
    · by_cases h2 : answer = "-"
      · simp only [processAnswers, if_neg h1, if_pos h2]
        exact ih d hq hv
      · simp only [processAnswers, if_neg h1, if_neg h2]
        apply ih
        · exact upsert_forall (fun s => statOK s ts) d.queries _ _ hq
            ⟨le_refl ts, le_refl ts⟩
            (fun s hs => ⟨hs.1.trans hs.2, le_refl ts⟩)
        · exact upsert_forall (fun s => statOK s ts) d.values _ _ hv
            ⟨le_refl ts, le_refl ts⟩
            (fun s hs => ⟨hs.1.trans hs.2, le_refl ts⟩)

theorem addRecord_inv (d : DNSAggregator) (r : DNSRecord) (t : Rat)
    (hd : InvBelow d t) (hts : t ≤ r.ts) : InvBelow (AddRecord d r) r.ts := by
  have hq : ∀ p ∈ d.queries, statOK p.2 r.ts :=
    fun p hp => statOK_mono _ _ _ (hd.1 p hp) hts
  have hv : ∀ p ∈ d.values, statOK p.2 r.ts :=
    fun p hp => statOK_mono _ _ _ (hd.2 p hp) hts
  by_cases h1 : r.query.length > MAX_SANE_VALUE_LEN
  · simp only [AddRecord, if_pos h1]
    exact ⟨hq, hv⟩
  · simp only [AddRecord, if_neg h1]
    apply processAnswers_inv
    · exact hq
    · exact upsert_forall (fun s => statOK s r.ts) d.values _ _ hv
        ⟨le_refl r.ts, le_refl r.ts⟩
        (fun s hs => ⟨hs.1.trans hs.2, le_refl r.ts⟩)

theorem combineStat_firstlast (a b : queryStat)
    (ha : a.first ≤ a.last) (_hb : b.first ≤ b.last) :
    (combineStat a b).first ≤ (combineStat a b).last := by
  simp only [combineStat]
  exact le_trans (min_le_left _ _) (ha.trans (le_max_left _ _))

theorem merge_firstlast (d e : DNSAggregator)
    (hd : FirstLast d) (he : FirstLast e) : FirstLast (Merge d e) := by
  constructor
  · exact mergeMaps_forall (fun s => s.first ≤ s.last) _ _ hd.1 he.1
      (fun a b => combineStat_firstlast a b)
  · exact mergeMaps_forall (fun s => s.first ≤ s.last) _ _ hd.2 he.2
      (fun a b => combineStat_firstlast a b)

/-! ### The persistent store (`store_pg.go`)

The tuples relation is keyed by (query, type, answer) with columns
(count, ttl, first, last); the individual relation is keyed by (which, value)
with columns (count, first, last) and no ttl column.  Stored timestamps are
modelled as rationals and the ttl column by the text value the Go code passes
(the server-side integer cast is a representation detail).  In sequential
execution the retry loop of the upsert procedures runs exactly once: UPDATE
when the key is present, INSERT otherwise. -/

/-- Result code of one upsert-procedure call: I for insert, U for
update. -/
inductive UpsertCode
  | I
  | U
deriving DecidableEq

/-- The UPDATE/INSERT row arithmetic of pgschema `update_tuples`:
`count = count + c`, `ttl = tt`, `first = least(f, first)`,
`last = greatest(l, last)`; a fresh row is `(c, tt, f, l)`. -/
def upsertTupleRow (o : Option queryStat) (tt : String) (c : Nat)
    (f l : Rat) : queryStat :=
  match o with
  | some row =>
    { count := row.count + c, ttl := tt
      first := min f row.first, last := max l row.last }
  | none => { count := c, ttl := tt, first := f, last := l }

/-- pgschema `update_tuples` applied to a table state. -/
def update_tuples (table : List (uniqueTuple × queryStat)) (k : uniqueTuple)
    (tt : String) (c : Nat) (f l : Rat) :
    List (uniqueTuple × queryStat) × UpsertCode :=
  (upsertList table k (fun o => upsertTupleRow o tt c f l),
   if (lookupKey table k).isSome then .U else .I)

/-- An individual-table row (the relation has no ttl column). -/
structure indivStat where
  count : Nat
  first : Rat
  last  : Rat
deriving DecidableEq

/-- The UPDATE/INSERT row arithmetic of pgschema `update_individual`:
`count = count + c`, `first = least(f, first)`, `last = greatest(l, last)`;
a fresh row is `(c, f, l)`. -/
def upsertIndividualRow (o : Option indivStat) (c : Nat)
    (f l : Rat) : indivStat :=
  match o with
  | some row =>
    { count := row.count + c, first := min f row.first, last := max l row.last }
  | none => { count := c, first := f, last := l }

/-- pgschema `update_individual` applied to a table state. -/
def update_individual (table : List (uniqueIndividual × indivStat))
    (k : uniqueIndividual) (c : Nat) (f l : Rat) :
    List (uniqueIndividual × indivStat) × UpsertCode :=
  (upsertList table k (fun o => upsertIndividualRow o c f l),
   if (lookupKey table k).isSome then .U else .I)

/-- Go `UpdateResult` tallies (the wall-clock `Duration` field is not
modelled). -/
structure UpdateResult where
  Inserted : Nat
  Updated  : Nat
deriving DecidableEq

/-- Outcome of executing one composed batch statement against the database:
the per-row result codes, or an execution error. -/
inductive BatchExec
  | ok (codes : List UpsertCode)
  | fail (e : String)
deriving DecidableEq

/-- How a call to `Update` ends.  `runBatch` calls `log.Fatal` on a query
error, which terminates the whole process instead of returning; a normal run
returns the tallied result (together with the `Commit` error, if any). -/
inductive UpdateEnd
  | returned (res : UpdateResult) (commitErr : Option String)
  | processExit (e : String)
deriving DecidableEq

/-- Whether an `Update` call handed an outcome back to its caller. -/
def UpdateEnd.isReturned : UpdateEnd → Bool
  | .returned _ _ => true
  | .processExit _ => false

/-- The tally loop of `runBatch` over the result string: each I increments
`Inserted`, every other character increments `Updated`. -/
def tallyBatch (res : UpdateResult) (codes : List UpsertCode) : UpdateResult :=
  codes.foldl
    (fun r ch =>
      match ch with
      | .I => { r with Inserted := r.Inserted + 1 }
      | .U => { r with Updated := r.Updated + 1 })
    res

/-- The batch-execution loop of `Update`: batches run in order; on the first
execution error `runBatch` calls `log.Fatal(err)`, so the call ends in
`processExit` — no rollback is issued and nothing is returned to the caller.
When all batches succeed the tallied result is returned (the `Commit` error
is modelled as `none` here: commit failure is a separate, returned path). -/
def runBatches {α : Type} (exec : List α → BatchExec) :
    UpdateResult → List (List α) → UpdateEnd
  | res, [] => .returned res none
  | res, b :: rest =>
    match exec b with
    | .fail e => .processExit e
    | .ok codes => runBatches exec (tallyBatch res codes) rest

/-- Modelled from the spec: `Reverse` is defined outside the given source
files; the spec describes it as reversal of the character sequence of the
query (granularity flagged as an open question there, which does not affect
which rows the transform is applied to). -/
def Reverse (s : String) : String :=
  String.mk s.data.reverse

/-- Modelled from the spec: `ToTS` is defined outside the given source files;
it turns the fractional-second timestamp into the whole-second epoch value
handed to `to_timestamp`. -/
def ToTS (x : Rat) : Int :=
  x.floor

/-- One argument group of the tuples batch built by `Update`. -/
structure TupleArgs where
  query  : String
  qtype  : String
  answer : String
  ttl    : String
  count  : Nat
  first  : Int
  last   : Int
deriving DecidableEq

/-- One argument group of the individual batch built by `Update`. -/
structure IndividualArgs where
  which : String
  value : String
  count : Nat
  first : Int
  last  : Int
deriving DecidableEq

/-- The first argument-building loop of `Update`: for every tuple entry it
appends `(Reverse(query), qtype, answer, ttl, count, ToTS first, ToTS last)`
to the argument list. -/
def updateTupleArgs (ar : aggregationResult) : List TupleArgs :=
  ar.Tuples.foldl
    (fun acc p =>
      acc ++ [{ query := Reverse p.1.query, qtype := p.1.qtype
                answer := p.1.answer, ttl := p.2.ttl, count := p.2.count
                first := ToTS p.2.first, last := ToTS p.2.last }])
    []

/-- The second argument-building loop of `Update`: for every individual entry
it appends `(which, value, count, ToTS first, ToTS last)`, reversing the value
only when `which == "Q"`. -/
def updateIndividualArgs (ar : aggregationResult) : List IndividualArgs :=
  ar.Individual.foldl
    (fun acc p =>
      acc ++ [{ which := p.1.which
                value := if p.1.which = "Q" then Reverse p.1.value else p.1.value
                count := p.2.count
                first := ToTS p.2.first, last := ToTS p.2.last }])
    []

/-- Go source: `func (s *PGStore) Close() error { return s.Close() }` — the
method calls itself (the receiver method shadows the embedded
`SQLCommonStore` one), so each unfolding step performs one self call and
nothing else.  The fuel-indexed evaluation records the actions taken and
whether a result was produced. -/
inductive CloseAction
  | selfCall
  | releaseConn
deriving DecidableEq

/-- Result of running `Close` with bounded fuel: `done` would be an actual
return, `outOfFuel` means evaluation was still recursing when fuel ran out. -/
inductive CloseResult
  | done (err : Option String)
  | outOfFuel
deriving DecidableEq

/-- Fuel-indexed unfolding of `PGStore.Close`: the only action in the body is
the self call. -/
def pgStoreClose : Nat → List CloseAction × CloseResult
  | 0 => ([], .outOfFuel)
  | n + 1 =>
    ((pgStoreClose n).1 ++ [CloseAction.selfCall], (pgStoreClose n).2)

/-! ### Shared auxiliary lemmas for the claims -/

theorem combineOpt_proj_assoc (a b c : Option queryStat) :
    (combineOpt (combineOpt a b) c).map statProj
      = (combineOpt a (combineOpt b c)).map statProj := by
  cases a <;> cases b <;> cases c <;>
    simp [combineOpt, statProj, combineStat, Nat.add_assoc, min_assoc, max_assoc]

theorem foldl_append_map {α β : Type} (g : α → β) (l : List α) (acc : List β) :
    l.foldl (fun a x => a ++ [g x]) acc = acc ++ l.map g := by
  induction l generalizing acc with
  | nil => simp
  | cons x rest ih => simp [ih]

/-! ### Concrete scenario data -/

/-- Record with ts = 10 for the arrival-order scenario. -/
def rec10 : DNSRecord :=
  { ts := 10, query := "q", qtype := "A", answers := ["1.1.1.1"], ttls := ["60"] }

/-- Record with ts = 5, same key as `rec10`. -/
def rec5 : DNSRecord :=
  { ts := 5, query := "q", qtype := "A", answers := ["1.1.1.1"], ttls := ["60"] }

/-- The tuple key shared by `rec10` and `rec5`. -/
def k1110 : uniqueTuple := { query := "q", answer := "1.1.1.1", qtype := "A" }

/-- Aggregator fed ts = 10 and then ts = 5 for one key. -/
def outOfOrderAgg : DNSAggregator :=
  AddRecord (AddRecord NewDNSAggregator rec10) rec5

/-- Scenario record R1 of the end-to-end property. -/
def R1 : DNSRecord :=
  { ts := 100, query := "www.example.com", qtype := "A"
    answers := ["1.1.1.1"], ttls := ["300"] }

/-- Scenario record R2 of the end-to-end property. -/
def R2 : DNSRecord :=
  { ts := 200, query := "www.example.com", qtype := "A"
    answers := ["1.1.1.1"], ttls := ["60"] }

/-- Scenario record R3 of the end-to-end property (sentinel answer). -/
def R3 : DNSRecord :=
  { ts := 150, query := "www.example.com", qtype := "A"
    answers := ["-"], ttls := ["0"] }

/-- The snapshot after feeding R1, R2, R3 to a fresh aggregator. -/
def scenarioResult : aggregationResult :=
  GetResult (AddRecord (AddRecord (AddRecord NewDNSAggregator R1) R2) R3)

/-! ### Claims -/

/-- C1, counterexample: feeding the same key ts = 10 and then ts = 5 yields
first = 10 and last = 5 — not first = 5, last = 10 as the claim states, so
the first/last statistics do depend on arrival order. -/
theorem C1_order_dependent_cex :
    (lookupKey outOfOrderAgg.queries k1110).map (fun s => (s.first, s.last))
      = some ((10 : Rat), (5 : Rat))
    ∧ ((10 : Rat), (5 : Rat)) ≠ ((5 : Rat), (10 : Rat)) := by
  exact ⟨by decide, by decide⟩

/-- C1 (amended): AddRecord does not take a min/max — updating an existing
key leaves `first` unchanged and overwrites `last` with `r.ts` (a fresh key
gets first = last = r.ts), so first/last reflect arrival order, not the
min/max of the fed timestamps: ts = 10 then ts = 5 gives first = 10,
last = 5. -/
theorem C1_last_overwrite (s : queryStat) (ts : Rat) (ttl : String) :
    bumpAnswer (some s) ts ttl
      = { s with count := s.count + 1, last := ts, ttl := ttl }
    ∧ bumpAnswer none ts ttl
      = { count := 1, first := ts, last := ts, ttl := ttl }
    ∧ bumpQueryValue (some s) ts = { s with count := s.count + 1, last := ts }
    ∧ (lookupKey outOfOrderAgg.queries k1110).map (fun s2 => (s2.first, s2.last))
      = some ((10 : Rat), (5 : Rat)) := by
  exact ⟨rfl, rfl, rfl, by decide⟩

/-- C2, counterexample: after feeding ts = 10 and then ts = 5 the stored
stat is {count 2, first 10, last 5, ttl "60"} with first > last, so the
invariant first ≤ last is not preserved by every AddRecord. -/
theorem C2_first_gt_last_cex :
    lookupKey outOfOrderAgg.queries k1110
      = some { count := 2, first := 10, last := 5, ttl := "60" }
    ∧ ¬((10 : Rat) ≤ (5 : Rat)) := by
  exact ⟨by decide, by decide⟩

/-- C2 (amended): first ≤ last holds from the empty aggregator onward
provided each AddRecord carries a timestamp no smaller than every timestamp
already recorded (`InvBelow` also bounds all stored `last` fields); Merge
preserves first ≤ last unconditionally.  An out-of-order AddRecord can
violate the invariant. -/
theorem C2_first_le_last_preserved (d e : DNSAggregator) (r : DNSRecord)
    (t : Rat) (hd : InvBelow d t) (hts : t ≤ r.ts)
    (hfd : FirstLast d) (hfe : FirstLast e) :
    InvBelow NewDNSAggregator t
    ∧ InvBelow (AddRecord d r) r.ts
    ∧ FirstLast (Merge d e) := by
  refine ⟨?_, addRecord_inv d r t hd hts, merge_firstlast d e hfd hfe⟩
  constructor <;> intro p hp <;> simp [NewDNSAggregator] at hp

theorem C2_first_le_last_preserved_witness :
    InvBelow NewDNSAggregator 0 ∧ (0 : Rat) ≤ rec5.ts
    ∧ FirstLast NewDNSAggregator
    ∧ (InvBelow NewDNSAggregator 0
       ∧ InvBelow (AddRecord NewDNSAggregator rec5) rec5.ts
       ∧ FirstLast (Merge NewDNSAggregator NewDNSAggregator)) :=
  ⟨by decide, by decide, by decide,
   C2_first_le_last_preserved NewDNSAggregator NewDNSAggregator rec5 0
     (by decide) (by decide) (by decide) (by decide)⟩

/-- C3, counterexample: in the end-to-end scenario the individual entry for
the query has last = 150 (the timestamp of the final record R3, which
overwrote it), not last = 200 as the claim states. -/
theorem C3_individual_last_cex :
    (lookupKey scenarioResult.Individual
        { value := "www.example.com", which := "Q" }).map queryStat.last
      = some (150 : Rat)
    ∧ (150 : Rat) ≠ (200 : Rat) := by
  exact ⟨by decide, by decide⟩

/-- C3 (amended): the scenario yields total = 3, skipped = 0, exactly one
tuple entry (q, "1.1.1.1", "A") with count 2, first 100, last 200,
ttl "60", an individual entry for q (role Query) with count 3, first 100 and
last 150 — the ts of the last record applied, since AddRecord overwrites
last — and an individual entry for "1.1.1.1" (role Answer) with count 2,
first 100, last 200. -/
theorem C3_end_to_end :
    scenarioResult.TotalRecords = 3
    ∧ scenarioResult.SkippedRecords = 0
    ∧ scenarioResult.Tuples
      = [({ query := "www.example.com", answer := "1.1.1.1", qtype := "A" },
          { count := 2, first := 100, last := 200, ttl := "60" })]
    ∧ lookupKey scenarioResult.Individual
        { value := "www.example.com", which := "Q" }
      = some { count := 3, first := 100, last := 150, ttl := "" }
    ∧ lookupKey scenarioResult.Individual { value := "1.1.1.1", which := "A" }
      = some { count := 2, first := 100, last := 200, ttl := "60" }
    ∧ scenarioResult.Individual.length = 2 := by
  refine ⟨by decide, by decide, by decide, by decide, by decide, by decide⟩

/-- Single-record aggregator (key from R1), used to instantiate C4. -/
def aggA : DNSAggregator := AddRecord NewDNSAggregator R1

/-- Single-record aggregator (key from R2), used to instantiate C4. -/
def aggB : DNSAggregator := AddRecord NewDNSAggregator R2

/-- Single-record aggregator (key from R3), used to instantiate C4. -/
def aggC : DNSAggregator := AddRecord NewDNSAggregator R3

/-- C4: Merge combines key-wise — a key absent in self is adopted wholesale
from other, a key present in both is combined as count += other.count,
first = min, last = max, ttl = other.ttl (this is exactly the content of the
`combineOpt` lookup characterization) — and consequently the two merge
associations agree on count/first/last for every key (ttl exempt).  The
Nodup hypotheses state that the maps of `B` and `C` bind each key once, which
holds for every aggregator built by AddRecord/Merge. -/
theorem C4_merge_combine_assoc (A B C : DNSAggregator)
    (k : uniqueTuple) (kv : uniqueIndividual)
    (hB : (B.queries.map Prod.fst).Nodup) (hBv : (B.values.map Prod.fst).Nodup)
    (hC : (C.queries.map Prod.fst).Nodup) (hCv : (C.values.map Prod.fst).Nodup) :
    lookupKey (Merge A B).queries k
      = combineOpt (lookupKey A.queries k) (lookupKey B.queries k)
    ∧ lookupKey (Merge A B).values kv
      = combineOpt (lookupKey A.values kv) (lookupKey B.values kv)
    ∧ (lookupKey (Merge (Merge A B) C).queries k).map statProj
      = (lookupKey (Merge A (Merge B C)).queries k).map statProj
    ∧ (lookupKey (Merge (Merge A B) C).values kv).map statProj
      = (lookupKey (Merge A (Merge B C)).values kv).map statProj := by
  refine ⟨lookup_mergeMaps _ _ _ hB, lookup_mergeMaps _ _ _ hBv, ?_, ?_⟩
  · show (lookupKey (mergeMaps (mergeMaps A.queries B.queries) C.queries) k).map
        statProj
      = (lookupKey (mergeMaps A.queries (mergeMaps B.queries C.queries)) k).map
        statProj
    rw [lookup_mergeMaps _ _ _ hC, lookup_mergeMaps _ _ _ hB,
      lookup_mergeMaps _ _ _ (nodup_mergeMaps C.queries B.queries hB),
      lookup_mergeMaps _ _ _ hC]
    exact combineOpt_proj_assoc _ _ _
  · show (lookupKey (mergeMaps (mergeMaps A.values B.values) C.values) kv).map
        statProj
      = (lookupKey (mergeMaps A.values (mergeMaps B.values C.values)) kv).map
        statProj
    rw [lookup_mergeMaps _ _ _ hCv, lookup_mergeMaps _ _ _ hBv,
      lookup_mergeMaps _ _ _ (nodup_mergeMaps C.values B.values hBv),
      lookup_mergeMaps _ _ _ hCv]
    exact combineOpt_proj_assoc _ _ _

theorem C4_merge_combine_assoc_witness :
    ((aggB.queries.map Prod.fst).Nodup ∧ (aggB.values.map Prod.fst).Nodup
     ∧ (aggC.queries.map Prod.fst).Nodup ∧ (aggC.values.map Prod.fst).Nodup)
    ∧ (lookupKey (Merge aggA aggB).queries k1110
        = combineOpt (lookupKey aggA.queries k1110) (lookupKey aggB.queries k1110)
       ∧ lookupKey (Merge aggA aggB).values
           { value := "www.example.com", which := "Q" }
        = combineOpt
            (lookupKey aggA.values { value := "www.example.com", which := "Q" })
            (lookupKey aggB.values { value := "www.example.com", which := "Q" })
       ∧ (lookupKey (Merge (Merge aggA aggB) aggC).queries k1110).map statProj
        = (lookupKey (Merge aggA (Merge aggB aggC)).queries k1110).map statProj
       ∧ (lookupKey (Merge (Merge aggA aggB) aggC).values
            { value := "www.example.com", which := "Q" }).map statProj
        = (lookupKey (Merge aggA (Merge aggB aggC)).values
            { value := "www.example.com", which := "Q" }).map statProj) :=
  ⟨⟨by decide, by decide, by decide, by decide⟩,
   C4_merge_combine_assoc aggA aggB aggC k1110
     { value := "www.example.com", which := "Q" }
     (by decide) (by decide) (by decide) (by decide)⟩

/-- Answer value one character longer than the sanity bound. -/
def longAnswer : String := String.mk (List.replicate 1001 'a')

/-- Record whose second answer exceeds the sanity bound. -/
def recBadAnswer : DNSRecord :=
  { ts := 1, query := "q", qtype := "A"
    answers := ["1.2.3.4", longAnswer], ttls := ["300", "300"] }

/-- Record whose query exceeds the sanity bound. -/
def recBadQuery : DNSRecord :=
  { ts := 1, query := longAnswer, qtype := "A", answers := [], ttls := [] }

/-- Aggregator fed the record with the over-long second answer. -/
def badAgg : DNSAggregator := AddRecord NewDNSAggregator recBadAnswer

/-- C5, counterexample: for a record whose second answer exceeds the bound,
the skip counter is incremented but the record is NOT dropped wholesale — the
total counter was already incremented and both the first-answer tuple stat
and the query-individual stat remain updated. -/
theorem C5_partial_update_cex :
    badAgg.skippedRecords = 1
    ∧ badAgg.totalRecords = 1
    ∧ lookupKey badAgg.queries { query := "q", answer := "1.2.3.4", qtype := "A" }
      = some { count := 1, first := 1, last := 1, ttl := "300" }
    ∧ lookupKey badAgg.values { value := "q", which := "Q" }
      = some { count := 1, first := 1, last := 1, ttl := "" } := by
  refine ⟨by decide, by decide, by decide, by decide⟩

/-- C5 (amended): an over-long query drops the whole record before any
statistic is touched, incrementing only the skip counter; an over-long answer
instead aborts the answers loop at that slot with the skip counter
incremented — the aggregator state reached so far (total counter, query
individual, earlier answer slots) is kept, only the remaining slots are
dropped.  Both conditions are non-fatal. -/
theorem C5_oversize_handling (d : DNSAggregator) (r : DNSRecord)
    (query qtype : String) (ts : Rat) (ans rawTtl : String)
    (rest : List (String × String))
    (hq : r.query.length > MAX_SANE_VALUE_LEN)
    (ha : ans.length > MAX_SANE_VALUE_LEN) :
    AddRecord d r = { d with skippedRecords := d.skippedRecords + 1 }
    ∧ processAnswers query qtype ts d ((ans, rawTtl) :: rest)
      = { d with skippedRecords := d.skippedRecords + 1 } := by
  constructor
  · simp [AddRecord, hq]
  · simp [processAnswers, ha]

theorem C5_oversize_handling_witness :
    recBadQuery.query.length > MAX_SANE_VALUE_LEN
    ∧ longAnswer.length > MAX_SANE_VALUE_LEN
    ∧ (AddRecord NewDNSAggregator recBadQuery
        = { NewDNSAggregator with
            skippedRecords := NewDNSAggregator.skippedRecords + 1 }
       ∧ processAnswers "q" "A" 1 NewDNSAggregator ((longAnswer, "0") :: [])
        = { NewDNSAggregator with
            skippedRecords := NewDNSAggregator.skippedRecords + 1 }) :=
  ⟨by decide, by decide,
   C5_oversize_handling NewDNSAggregator recBadQuery "q" "A" 1 longAnswer "0" []
     (by decide) (by decide)⟩

/-- First ttl-scenario record: ttl "300.0". -/
def rT1 : DNSRecord :=
  { ts := 1, query := "t.example.com", qtype := "A"
    answers := ["2.2.2.2"], ttls := ["300.0"] }

/-- Second ttl-scenario record: same key, ttl "60". -/
def rT2 : DNSRecord :=
  { ts := 2, query := "t.example.com", qtype := "A"
    answers := ["2.2.2.2"], ttls := ["60"] }

/-- The tuple key shared by `rT1` and `rT2`. -/
def tkT : uniqueTuple :=
  { query := "t.example.com", answer := "2.2.2.2", qtype := "A" }

/-- C6: every accepted single-answer update leaves the tuple ttl equal to the
normalized TTL of that update, where normalization strips the trailing
decimal fraction and maps the sentinel "-" to "0"; feeding ttls "300.0" and
then "60" for the same key leaves ttl "60". -/
theorem C6_ttl_overwrite (d : DNSAggregator) (r : DNSRecord) (a t : String)
    (hq : ¬r.query.length > MAX_SANE_VALUE_LEN)
    (ha : ¬a.length > MAX_SANE_VALUE_LEN)
    (hne : ¬a = "-") (hans : r.answers = [a]) (httl : r.ttls = [t]) :
    (lookupKey (AddRecord d r).queries
        { query := r.query, answer := a, qtype := r.qtype }).map queryStat.ttl
      = some (stripDecimal t)
    ∧ stripDecimal "300.0" = "300"
    ∧ stripDecimal "-" = "0"
    ∧ (lookupKey (AddRecord (AddRecord NewDNSAggregator rT1) rT2).queries
        tkT).map queryStat.ttl = some "60" := by
  refine ⟨?_, by decide, by decide, by decide⟩
  simp only [AddRecord, if_neg hq, hans, httl, List.zip_cons_cons,
    List.zip_nil_left, processAnswers, if_neg ha, if_neg hne]
  rw [lookup_upsert_self]
  cases lookupKey d.queries { query := r.query, answer := a, qtype := r.qtype } <;>
    simp [bumpAnswer]

theorem C6_ttl_overwrite_witness :
    ¬rT2.query.length > MAX_SANE_VALUE_LEN
    ∧ ¬("2.2.2.2").length > MAX_SANE_VALUE_LEN
    ∧ ¬("2.2.2.2") = "-"
    ∧ rT2.answers = ["2.2.2.2"] ∧ rT2.ttls = ["60"]
    ∧ ((lookupKey (AddRecord NewDNSAggregator rT2).queries
          { query := rT2.query, answer := "2.2.2.2", qtype := rT2.qtype }).map
          queryStat.ttl = some (stripDecimal "60")
       ∧ stripDecimal "300.0" = "300"
       ∧ stripDecimal "-" = "0"
       ∧ (lookupKey (AddRecord (AddRecord NewDNSAggregator rT1) rT2).queries
            tkT).map queryStat.ttl = some "60") :=
  ⟨by decide, by decide, by decide, rfl, rfl,
   C6_ttl_overwrite NewDNSAggregator rT2 "2.2.2.2" "60"
     (by decide) (by decide) (by decide) rfl rfl⟩

/-- C7: the per-key upsert used by Update applies the same combine semantics
as the in-memory Merge — an existing row receives count += delta,
first = min, last = max and (tuples only) ttl overwritten, an absent key is
inserted with the given values — and therefore two rows for the same key
with deltas 3 and 4 applied within one Update call raise the stored count by
exactly 7, whatever the starting table. -/
theorem C7_upsert_matches_merge (row : queryStat) (irow : indivStat)
    (T : List (uniqueTuple × queryStat)) (k : uniqueTuple)
    (tt tt1 tt2 : String) (c : Nat) (f l f1 l1 f2 l2 : Rat) :
    upsertTupleRow (some row) tt c f l
      = combineStat row { count := c, first := f, last := l, ttl := tt }
    ∧ upsertTupleRow none tt c f l
      = { count := c, first := f, last := l, ttl := tt }
    ∧ upsertIndividualRow (some irow) c f l
      = { count := irow.count + c, first := min irow.first f
          last := max irow.last l }
    ∧ upsertIndividualRow none c f l = { count := c, first := f, last := l }
    ∧ (lookupKey (update_tuples (update_tuples T k tt1 3 f1 l1).1
          k tt2 4 f2 l2).1 k).map queryStat.count
      = some ((((lookupKey T k).map queryStat.count).getD 0) + 7) := by
  refine ⟨?_, rfl, ?_, rfl, ?_⟩
  · simp [upsertTupleRow, combineStat, min_comm, max_comm]
  · simp [upsertIndividualRow, min_comm, max_comm]
  · show (lookupKey (upsertList (upsertList T k
        (fun o => upsertTupleRow o tt1 3 f1 l1))
        k (fun o => upsertTupleRow o tt2 4 f2 l2)) k).map queryStat.count = _
    rw [lookup_upsert_self, lookup_upsert_self]
    cases lookupKey T k <;> simp [upsertTupleRow]

/-- Batch executor that fails on every batch, standing for a database that
reports an execution error. -/
def failingExec : List Nat → BatchExec :=
  fun _ => .fail "batch execution error"

/-- C8, counterexample: when the (single) batch of an Update call reports an
execution error, the modelled call ends in `processExit` — `log.Fatal`
terminates the process — so no typed outcome is returned to the caller,
contradicting the no-process-level-termination part of the claim. -/
theorem C8_batch_error_not_returned_cex :
    runBatches failingExec { Inserted := 0, Updated := 0 } [[1]]
      = UpdateEnd.processExit "batch execution error"
    ∧ (runBatches failingExec { Inserted := 0, Updated := 0 } [[1]]).isReturned
      = false := by
  exact ⟨rfl, rfl⟩

/-- C8 (amended): any execution error inside a batch is fatal to the whole
process, not just the Update call — `runBatch` calls `log.Fatal(err)`, so the
failure is never returned to the caller as a typed outcome (the transaction
is simply never committed; no explicit rollback is issued).  Errors raised
before batch execution (BeginTx, Prepare, Commit) are the ones returned to
the caller. -/
theorem C8_batch_error_exits {α : Type} (exec : List α → BatchExec)
    (res : UpdateResult) (batches : List (List α)) (b : List α) (e : String)
    (hb : b ∈ batches) (hfail : exec b = .fail e) :
    (runBatches exec res batches).isReturned = false := by
  induction batches generalizing res with
  | nil => cases hb
  | cons b0 rest ih =>
    cases hexec : exec b0 with
    | fail e0 => simp [runBatches, hexec, UpdateEnd.isReturned]
    | ok codes =>
      rcases List.mem_cons.mp hb with hb0 | hb0
      · subst hb0
        rw [hexec] at hfail
        cases hfail
      · simp only [runBatches, hexec]
        exact ih _ hb0

theorem C8_batch_error_exits_witness :
    [1] ∈ [[1]]
    ∧ failingExec [1] = BatchExec.fail "batch execution error"
    ∧ (runBatches failingExec { Inserted := 0, Updated := 0 } [[1]]).isReturned
      = false :=
  ⟨by decide, rfl,
   C8_batch_error_exits failingExec { Inserted := 0, Updated := 0 } [[1]] [1]
     "batch execution error" (by decide) rfl⟩

/-- C9: every tuple row handed to the store carries the reversed query and
the unchanged answer; every individual row keeps its role, has its value
reversed when the role is Query ("Q") and unchanged otherwise (in particular
for role Answer). -/
theorem C9_query_reversed_for_storage (ar : aggregationResult) :
    (updateTupleArgs ar).map TupleArgs.query
      = ar.Tuples.map (fun p => Reverse p.1.query)
    ∧ (updateTupleArgs ar).map TupleArgs.answer
      = ar.Tuples.map (fun p => p.1.answer)
    ∧ (updateIndividualArgs ar).map IndividualArgs.which
      = ar.Individual.map (fun p => p.1.which)
    ∧ (updateIndividualArgs ar).map IndividualArgs.value
      = ar.Individual.map
          (fun p => if p.1.which = "Q" then Reverse p.1.value else p.1.value) := by
  have ht : updateTupleArgs ar
      = ar.Tuples.map (fun p =>
          { query := Reverse p.1.query, qtype := p.1.qtype
            answer := p.1.answer, ttl := p.2.ttl, count := p.2.count
            first := ToTS p.2.first, last := ToTS p.2.last }) := by
    unfold updateTupleArgs
    rw [foldl_append_map]
    simp
  have hi : updateIndividualArgs ar
      = ar.Individual.map (fun p =>
          { which := p.1.which
            value := if p.1.which = "Q" then Reverse p.1.value else p.1.value
            count := p.2.count
            first := ToTS p.2.first, last := ToTS p.2.last }) := by
    unfold updateIndividualArgs
    rw [foldl_append_map]
    simp
  refine ⟨?_, ?_, ?_, ?_⟩ <;>
    simp [ht, hi, List.map_map, Function.comp]

/-- C10: the store Close method only ever calls itself — under any amount of
fuel it produces no result (it does not terminate) and never performs the
connection-release action, so it does not satisfy the release-exactly-once
contract. -/
theorem C10_close_never_returns (n : Nat) :
    (pgStoreClose n).2 = CloseResult.outOfFuel
    ∧ CloseAction.releaseConn ∉ (pgStoreClose n).1 := by
  induction n with
  | zero => exact ⟨rfl, by simp [pgStoreClose]⟩
  | succ n ih =>
    refine ⟨ih.1, ?_⟩
    simp only [pgStoreClose, List.mem_append, List.mem_singleton]
    rintro (h | h)
    · exact ih.2 h
    · cases h

end BroPDNS
